import Mathlib

/-!
Shallow embedding of `scripts/generate_personalens_icons.py`.

Bytes are modelled as natural numbers, byte buffers as `List ℕ`, Python
floats as rationals, and Python ints as `ℤ` (or `ℕ` where the source value
is a size or a byte). `math.hypot` computes a real square root, which is
not rational; the rasterizers are therefore parametrised by an arbitrary
function `sqrtQ : ℚ → ℚ` standing for the square root — no theorem below
depends on its value. Python `round` is round-half-to-even; Python `int()`
on a float truncates toward zero; both are modelled explicitly.
-/

/-- Python `round`: round half to even, on rationals. -/
def pyRound (q : ℚ) : ℤ :=
  if q - ⌊q⌋ < 1/2 then ⌊q⌋
  else if 1/2 < q - ⌊q⌋ then ⌊q⌋ + 1
  else if ⌊q⌋ % 2 = 0 then ⌊q⌋ else ⌊q⌋ + 1

/-- Python `int()` on a float: truncation toward zero. -/
def pyInt (q : ℚ) : ℤ :=
  if 0 ≤ q then ⌊q⌋ else ⌈q⌉

/-- Model of `struct.pack('>I', n)`: big-endian 4-byte encoding. -/
def be32 (n : ℕ) : List ℕ :=
  [n / 16777216 % 256, n / 65536 % 256, n / 256 % 256, n % 256]

/-- Big-endian 4-byte decoding (inverse of `be32` below `2^32`). -/
def parseBE32 (bs : List ℕ) : ℕ :=
  ((bs.getD 0 0 * 256 + bs.getD 1 0) * 256 + bs.getD 2 0) * 256 + bs.getD 3 0

/-- One bit step of the CRC-32 shift register (polynomial `0xEDB88320`). -/
def crcStep (c : ℕ) : ℕ :=
  if c % 2 = 1 then (c / 2) ^^^ 0xEDB88320 else c / 2

/-- Feed one byte into the CRC-32 state: xor it in, then shift 8 times. -/
def crcByte (c b : ℕ) : ℕ :=
  crcStep^[8] (c ^^^ b)

/-- Model of `zlib.crc32(data)`: standard CRC-32 over a byte list. -/
def crc32 (data : List ℕ) : ℕ :=
  (data.foldl crcByte 0xFFFFFFFF) ^^^ 0xFFFFFFFF

/-- Source `chunk(tag, data)`: big-endian length, tag, payload,
then the CRC-32 of `tag ++ data` masked to 32 bits. No validation of the
tag length is performed. -/
def chunk (tag data : List ℕ) : List ℕ :=
  be32 (data.length % 4294967296) ++ tag ++ data ++
    be32 (crc32 (tag ++ data) % 4294967296)

/-- The scanline-filter loop of `save_png`: each row of `w*4` bytes is
prefixed with a `0` filter byte. -/
def filterScanlines (w h : ℕ) (rgba : List ℕ) : List ℕ :=
  (List.range h).foldl
    (fun raw y => raw ++ 0 :: ((rgba.drop (y * (w * 4))).take (w * 4))) []

/-- The fixed 8-byte PNG signature `b'\x89PNG\r\n\x1a\n'`. -/
def pngSig : List ℕ := [137, 80, 78, 71, 13, 10, 26, 10]

/-- The ASCII bytes of `b'IHDR'`. -/
def ihdrTag : List ℕ := [73, 72, 68, 82]

/-- The ASCII bytes of `b'IDAT'`. -/
def idatTag : List ℕ := [73, 68, 65, 84]

/-- The ASCII bytes of `b'IEND'`. -/
def iendTag : List ℕ := [73, 69, 78, 68]

/-- Source `save_png` minus the filesystem write: signature, IHDR chunk
(`struct.pack('>IIBBBBB', w, h, 8, 6, 0, 0, 0)`), IDAT chunk wrapping the
compressed filtered scanlines, IEND chunk. `zlib.compress` is an external
library call, modelled as an arbitrary function parameter `compress`. -/
def encodePng (compress : List ℕ → List ℕ) (w h : ℕ) (rgba : List ℕ) :
    List ℕ :=
  pngSig ++
    chunk ihdrTag (be32 w ++ be32 h ++ [8, 6, 0, 0, 0]) ++
    chunk idatTag (compress (filterScanlines w h rgba)) ++
    chunk iendTag []

/-- Parse one chunk from the front of a byte stream: big-endian length,
4-byte tag, payload of that length, big-endian CRC which must equal the
CRC-32 of tag ++ payload. Returns the tag, the payload and the rest. -/
def parseChunk (bs : List ℕ) : Option ((List ℕ × List ℕ) × List ℕ) :=
  if bs.length < 12 + parseBE32 (bs.take 4) then none
  else if (bs.drop (8 + parseBE32 (bs.take 4))).take 4 =
      be32 (crc32 ((bs.drop 4).take 4 ++
        (bs.drop 8).take (parseBE32 (bs.take 4))) % 4294967296) then
    some (((bs.drop 4).take 4, (bs.drop 8).take (parseBE32 (bs.take 4))),
      bs.drop (12 + parseBE32 (bs.take 4)))
  else none

/-- Parse the header chunk of an encoded image: skip the 8-byte signature,
parse the first chunk, require its tag to be IHDR, and read the width and
height from the first 8 payload bytes. -/
def parseHeaderWH (bs : List ℕ) : Option (ℕ × ℕ) :=
  match parseChunk (bs.drop 8) with
  | none => none
  | some ((tag, payload), _) =>
    if tag = ihdrTag then
      some (parseBE32 (payload.take 4), parseBE32 ((payload.drop 4).take 4))
    else none

/-- A color is a Python 4-tuple `(r, g, b, a)` of byte-valued ints. -/
abbrev Color := ℕ × ℕ × ℕ × ℕ

/-- Helper for `make_canvas`: `n` consecutive pixels of the background
color (the source zero-fills `bytearray(w*h*4)` and then writes every
component, so the buffer is exactly the repeated background). -/
def canvasFill (n : ℕ) (bg : Color) : List ℕ :=
  match n with
  | 0 => []
  | n + 1 => bg.1 :: bg.2.1 :: bg.2.2.1 :: bg.2.2.2 :: canvasFill n bg

/-- Source `make_canvas(w, h, bg)`: a `w*h*4`-byte buffer, every pixel set to
`bg`. No dimension validation is performed by the source. -/
def make_canvas (w h : ℕ) (bg : Color) : List ℕ :=
  canvasFill (w * h) bg

/-- Write the four bytes of a pixel at byte offset `i` (the slice
assignment `px[i:i+4] = bytes(...)`). -/
def setPixel4 (px : List ℕ) (i : ℕ) (r g b a : ℕ) : List ℕ :=
  (((px.set i r).set (i + 1) g).set (i + 2) b).set (i + 3) a

/-- The output alpha `out_a = sa_f + da_f * (1 - sa_f)` computed by
`blend` from the source and destination alpha bytes. -/
def outA (sa da : ℕ) : ℚ :=
  sa / 255 + (da / 255) * (1 - (sa : ℚ) / 255)

/-- One blended channel of `blend`:
`int(round((sc * sa_f + dc * da_f * (1 - sa_f)) / out_a))`. Values are
nonnegative at every call site (Python would raise on a negative byte
assignment), so the result is taken in ℕ. -/
def blendComp (sa da sc dc : ℕ) : ℕ :=
  (pyRound ((sc * ((sa : ℚ) / 255) + dc * ((da : ℚ) / 255) * (1 - (sa : ℚ) / 255)) /
    outA sa da)).toNat

/-- Source `blend(px, w, h, x, y, color)`: bounds check, early
return on non-positive source alpha, Porter-Duff source-over with straight
alpha, with a fallback to transparent black when `out_a <= 0`. -/
def blend (w h : ℕ) (x y : ℤ) (color : Color) (px : List ℕ) : List ℕ :=
  if x < 0 ∨ y < 0 ∨ (w : ℤ) ≤ x ∨ (h : ℤ) ≤ y then px
  else if color.2.2.2 = 0 then px
  else if outA color.2.2.2 (px.getD ((y.toNat * w + x.toNat) * 4 + 3) 0) ≤ 0 then
    setPixel4 px ((y.toNat * w + x.toNat) * 4) 0 0 0 0
  else
    setPixel4 px ((y.toNat * w + x.toNat) * 4)
      (blendComp color.2.2.2 (px.getD ((y.toNat * w + x.toNat) * 4 + 3) 0)
        color.1 (px.getD ((y.toNat * w + x.toNat) * 4) 0))
      (blendComp color.2.2.2 (px.getD ((y.toNat * w + x.toNat) * 4 + 3) 0)
        color.2.1 (px.getD ((y.toNat * w + x.toNat) * 4 + 1) 0))
      (blendComp color.2.2.2 (px.getD ((y.toNat * w + x.toNat) * 4 + 3) 0)
        color.2.2.1 (px.getD ((y.toNat * w + x.toNat) * 4 + 2) 0))
      (pyRound (outA color.2.2.2
        (px.getD ((y.toNat * w + x.toNat) * 4 + 3) 0) * 255)).toNat

/-- Variant of `blend` with the `out_a <= 0` fallback branch removed: the compositing
arithmetic is always taken when the source alpha is positive. -/
def blendSafe (w h : ℕ) (x y : ℤ) (color : Color) (px : List ℕ) : List ℕ :=
  if x < 0 ∨ y < 0 ∨ (w : ℤ) ≤ x ∨ (h : ℤ) ≤ y then px
  else if color.2.2.2 = 0 then px
  else
    setPixel4 px ((y.toNat * w + x.toNat) * 4)
      (blendComp color.2.2.2 (px.getD ((y.toNat * w + x.toNat) * 4 + 3) 0)
        color.1 (px.getD ((y.toNat * w + x.toNat) * 4) 0))
      (blendComp color.2.2.2 (px.getD ((y.toNat * w + x.toNat) * 4 + 3) 0)
        color.2.1 (px.getD ((y.toNat * w + x.toNat) * 4 + 1) 0))
      (blendComp color.2.2.2 (px.getD ((y.toNat * w + x.toNat) * 4 + 3) 0)
        color.2.2.1 (px.getD ((y.toNat * w + x.toNat) * 4 + 2) 0))
      (pyRound (outA color.2.2.2
        (px.getD ((y.toNat * w + x.toNat) * 4 + 3) 0) * 255)).toNat

/-- Source `lerp(a, b, t)`. -/
def lerp (a b t : ℚ) : ℚ :=
  a + (b - a) * t

/-- Source `mix(c1, c2, t)`: per-channel rounded linear interpolation. The
results are bytes at every call site, so components are taken in ℕ. -/
def mix (c1 c2 : Color) (t : ℚ) : Color :=
  ((pyRound (lerp c1.1 c2.1 t)).toNat,
   (pyRound (lerp c1.2.1 c2.2.1 t)).toNat,
   (pyRound (lerp c1.2.2.1 c2.2.2.1 t)).toNat,
   (pyRound (lerp c1.2.2.2 c2.2.2.2 t)).toNat)

/-- Source `fill_linear_gradient(px, w, h, c_tl, c_br)`: every pixel is directly
set (not blended) to `mix(c_tl, c_br, t)` with
`t = clamp((tx*0.6 + ty*0.9)/1.5, 0, 1)`, `tx = x/max(1, w-1)`,
`ty = y/max(1, h-1)`. -/
def fill_linear_gradient (w h : ℕ) (c_tl c_br : Color) (px : List ℕ) :
    List ℕ :=
  (List.range h).foldl
    (fun px1 (y : ℕ) =>
      let ty : ℚ := y / (max 1 (h - 1) : ℕ)
      (List.range w).foldl
        (fun px2 (x : ℕ) =>
          let tx : ℚ := x / (max 1 (w - 1) : ℕ)
          let t := max 0 (min 1 ((tx * 0.6 + ty * 0.9) / 1.5))
          let c := mix c_tl c_br t
          setPixel4 px2 ((y * w + x) * 4) c.1 c.2.1 c.2.2.1 c.2.2.2)
        px1)
    px

/-- The inclusive integer range `lo..hi` of a Python
`range(lo, hi + 1)` loop (empty when `hi < lo`). -/
def intRange (lo hi : ℤ) : List ℤ :=
  (List.range (hi + 1 - lo).toNat).map (fun k => lo + k)

/-- All `(x, y)` pairs visited by the nested
`for y in range(y0, y1+1): for x in range(x0, x1+1)` scan. -/
def scanPairs (x0 x1 y0 y1 : ℤ) : List (ℤ × ℤ) :=
  (intRange y0 y1).flatMap (fun y => (intRange x0 x1).map (fun x => (x, y)))

/-- Model of `math.hypot` through an arbitrary square-root function. -/
def hypotQ (sqrtQ : ℚ → ℚ) (a b : ℚ) : ℚ :=
  sqrtQ (a * a + b * b)

/-- The shared loop tail of `draw_soft_circle` and `draw_ring`:
`if a > 0: blend(px, w, h, x, y, (cr, cg, cb, int(ca * a)))`. -/
def coverageStep (w h : ℕ) (x y : ℤ) (color : Color) (a : ℚ)
    (px : List ℕ) : List ℕ :=
  if 0 < a then
    blend w h x y
      (color.1, color.2.1, color.2.2.1, (pyInt (color.2.2.2 * a)).toNat) px
  else px

/-- The per-pixel coverage of `draw_diag_glow` as a function of the
distance `d` to the segment: `1` for `d <= width`, otherwise the clamped
ramp `(width + feather - d) / feather`. -/
def glowCoverage (wid feather d : ℚ) : ℚ :=
  if d ≤ wid then 1 else max 0 (min 1 ((wid + feather - d) / feather))

/-- The loop tail of `draw_diag_glow`: blend only when
`d <= width + feather`. -/
def glowStep (w h : ℕ) (x y : ℤ) (color : Color) (wid feather d : ℚ)
    (px : List ℕ) : List ℕ :=
  if d ≤ wid + feather then
    blend w h x y
      (color.1, color.2.1, color.2.2.1,
        (pyInt (color.2.2.2 * glowCoverage wid feather d)).toNat) px
  else px

/-- The loop tail of `draw_rounded_rect_stroke`: blend with the clamped
linear falloff `max(0, 1 - ad / max(1, thickness))` when
`ad <= thickness`. -/
def rectStep (w h : ℕ) (x y : ℤ) (color : Color) (thickness ad : ℚ)
    (px : List ℕ) : List ℕ :=
  if ad ≤ thickness then
    blend w h x y
      (color.1, color.2.1, color.2.2.1,
        (pyInt (color.2.2.2 * max 0 (1 - ad / max 1 thickness))).toNat) px
  else px

/-- The per-pixel coverage of `draw_soft_circle` as a function of the
distance `d` from the pixel center to the disc center (source lines
87–91). -/
def softCircleCoverage (r feather d : ℚ) : ℚ :=
  if d ≤ r - feather then 1
  else if d ≤ r + feather then
    max 0 (min 1 ((r + feather - d) / (2 * feather)))
  else 0

/-- Source `draw_soft_circle(px, w, h, cx, cy, r, color, feather)`. -/
def draw_soft_circle (sqrtQ : ℚ → ℚ) (w h : ℕ) (cx cy r : ℚ)
    (color : Color) (feather : ℚ) (px : List ℕ) : List ℕ :=
  let x0 := max 0 (pyInt (cx - r - feather - 1))
  let x1 := min ((w : ℤ) - 1) (pyInt (cx + r + feather + 1))
  let y0 := max 0 (pyInt (cy - r - feather - 1))
  let y1 := min ((h : ℤ) - 1) (pyInt (cy + r + feather + 1))
  (scanPairs x0 x1 y0 y1).foldl
    (fun px1 (p : ℤ × ℤ) =>
      let d := hypotQ sqrtQ (p.1 + 1/2 - cx) (p.2 + 1/2 - cy)
      coverageStep w h p.1 p.2 color (softCircleCoverage r feather d) px1)
    px

/-- The quantity `outer = r + thickness / 2` of `draw_ring`. -/
def ringOuter (r thickness : ℚ) : ℚ := r + thickness / 2

/-- The quantity `inner = max(0.0, r - thickness / 2)` of `draw_ring`. -/
def ringInner (r thickness : ℚ) : ℚ := max 0 (r - thickness / 2)

/-- The outer-edge fade `a_out` of `draw_ring`. -/
def ringAOut (outer feather d : ℚ) : ℚ :=
  if d ≤ outer - feather then 1
  else max 0 (min 1 ((outer + feather - d) / (2 * feather)))

/-- The inner-edge fade `a_in` of `draw_ring`. -/
def ringAIn (inner feather d : ℚ) : ℚ :=
  if inner + feather ≤ d then 1
  else max 0 (min 1 ((d - (inner - feather)) / (2 * feather)))

/-- The per-pixel coverage of `draw_ring` as a function of the distance
`d` from the pixel center to the ring center (source lines 97–98 and
107–114): full coverage strictly between the feathered edges, otherwise
the minimum of the outer-edge and inner-edge fades. -/
def ringCoverage (r thickness feather d : ℚ) : ℚ :=
  if ringInner r thickness + feather ≤ d ∧ d ≤ ringOuter r thickness - feather
  then 1
  else if ringInner r thickness - feather ≤ d ∧
      d ≤ ringOuter r thickness + feather then
    min (ringAOut (ringOuter r thickness) feather d)
      (ringAIn (ringInner r thickness) feather d)
  else 0

/-- Source `draw_ring(px, w, h, cx, cy, r, thickness, color, feather)`. -/
def draw_ring (sqrtQ : ℚ → ℚ) (w h : ℕ) (cx cy r thickness : ℚ)
    (color : Color) (feather : ℚ) (px : List ℕ) : List ℕ :=
  let outer := ringOuter r thickness
  let x0 := max 0 (pyInt (cx - outer - feather - 1))
  let x1 := min ((w : ℤ) - 1) (pyInt (cx + outer + feather + 1))
  let y0 := max 0 (pyInt (cy - outer - feather - 1))
  let y1 := min ((h : ℤ) - 1) (pyInt (cy + outer + feather + 1))
  (scanPairs x0 x1 y0 y1).foldl
    (fun px1 (p : ℤ × ℤ) =>
      let d := hypotQ sqrtQ (p.1 + 1/2 - cx) (p.2 + 1/2 - cy)
      coverageStep w h p.1 p.2 color (ringCoverage r thickness feather d) px1)
    px

/-- Source `draw_diag_glow(px, w, h, x0, y0, x1, y1, width, color, feather)`:
capsule glow from the clamped projection onto the segment. -/
def draw_diag_glow (sqrtQ : ℚ → ℚ) (w h : ℕ) (ax ay bx by_ wid : ℚ)
    (color : Color) (feather : ℚ) (px : List ℕ) : List ℕ :=
  let minx := max 0 (pyInt (min ax bx - wid - feather - 2))
  let maxx := min ((w : ℤ) - 1) (pyInt (max ax bx + wid + feather + 2))
  let miny := max 0 (pyInt (min ay by_ - wid - feather - 2))
  let maxy := min ((h : ℤ) - 1) (pyInt (max ay by_ + wid + feather + 2))
  let vx := bx - ax
  let vy := by_ - ay
  let vlen2 := vx * vx + vy * vy + 1/1000000
  (scanPairs minx maxx miny maxy).foldl
    (fun px1 (p : ℤ × ℤ) =>
      let px0 := p.1 + 1/2 - ax
      let py0 := p.2 + 1/2 - ay
      let t := max 0 (min 1 ((px0 * vx + py0 * vy) / vlen2))
      let qx := ax + vx * t
      let qy := ay + vy * t
      let d := hypotQ sqrtQ (p.1 + 1/2 - qx) (p.2 + 1/2 - qy)
      glowStep w h p.1 p.2 color wid feather d px1)
    px

/-- Source `draw_rounded_rect_stroke(px, w, h, x, y, rw, rh, radius, thickness,
color)`: rounded-box signed distance, linear falloff of width
`max(1, thickness)`. -/
def draw_rounded_rect_stroke (sqrtQ : ℚ → ℚ) (w h : ℕ)
    (x y rw rh radius thickness : ℚ) (color : Color) (px : List ℕ) :
    List ℕ :=
  let x0 := max 0 (pyInt (x - thickness - 2))
  let x1 := min ((w : ℤ) - 1) (pyInt (x + rw + thickness + 2))
  let y0 := max 0 (pyInt (y - thickness - 2))
  let y1 := min ((h : ℤ) - 1) (pyInt (y + rh + thickness + 2))
  let cx := x + rw / 2
  let cy := y + rh / 2
  let hx := rw / 2 - radius
  let hy := rh / 2 - radius
  (scanPairs x0 x1 y0 y1).foldl
    (fun px1 (p : ℤ × ℤ) =>
      let qx := |(p.1 + 1/2 : ℚ) - cx| - hx
      let qy := |(p.2 + 1/2 : ℚ) - cy| - hy
      let dist := hypotQ sqrtQ (max qx 0) (max qy 0) + min (max qx qy) 0 - radius
      rectStep w h p.1 p.2 color thickness |dist| px1)
    px

/-! ### Helper lemmas -/

theorem floor_le_pyRound (q : ℚ) : ⌊q⌋ ≤ pyRound q := by
  unfold pyRound
  split
  · exact le_refl _
  · split
    · omega
    · split <;> omega

theorem pyRound_le_ceil (q : ℚ) : pyRound q ≤ ⌈q⌉ := by
  unfold pyRound
  split
  · exact Int.floor_le_ceil q
  · have hfrac : (1 : ℚ) / 2 ≤ q - ⌊q⌋ := by linarith
    have hlt : (⌊q⌋ : ℚ) < q := by linarith
    have hceil : (⌊q⌋ : ℚ) < (⌈q⌉ : ℚ) := lt_of_lt_of_le hlt (Int.le_ceil q)
    have hceil' : ⌊q⌋ < ⌈q⌉ := by exact_mod_cast hceil
    split
    · omega
    · split <;> omega

theorem pyRound_nonneg {q : ℚ} (h : 0 ≤ q) : 0 ≤ pyRound q := by
  have h0 : (0 : ℤ) ≤ ⌊q⌋ := Int.floor_nonneg.mpr h
  exact le_trans h0 (floor_le_pyRound q)

theorem pyRound_le_of_le {q : ℚ} {m : ℤ} (h : q ≤ m) : pyRound q ≤ m :=
  le_trans (pyRound_le_ceil q) (Int.ceil_le.mpr h)

theorem pyRound_intCast (n : ℤ) : pyRound n = n := by
  unfold pyRound
  rw [Int.floor_intCast]
  simp

theorem pyRound_natCast (n : ℕ) : pyRound n = n := by
  have : ((n : ℤ) : ℚ) = (n : ℚ) := by push_cast; ring
  rw [← this, pyRound_intCast]

theorem pyInt_nonneg {q : ℚ} (h : 0 ≤ q) : 0 ≤ pyInt q := by
  unfold pyInt
  rw [if_pos h]
  exact Int.floor_nonneg.mpr h

theorem pyInt_le_of_le {q : ℚ} {m : ℤ} (h : q ≤ m) : pyInt q ≤ m := by
  unfold pyInt
  split
  · have h2 : ((⌊q⌋ : ℚ)) ≤ (m : ℚ) := (Int.floor_le q).trans h
    exact_mod_cast h2
  · exact Int.ceil_le.mpr h

theorem length_setPixel4 (px : List ℕ) (i r g b a : ℕ) :
    (setPixel4 px i r g b a).length = px.length := by
  simp [setPixel4]

theorem getD_set_of_ne (l : List ℕ) (i j v : ℕ) (h : i ≠ j) :
    (l.set i v).getD j 0 = l.getD j 0 := by
  rw [List.getD_eq_getElem?_getD, List.getD_eq_getElem?_getD,
    List.getElem?_set_ne h]

theorem getD_setPixel4_of_ne (px : List ℕ) (i r g b a j : ℕ)
    (h1 : i ≠ j) (h2 : i + 1 ≠ j) (h3 : i + 2 ≠ j) (h4 : i + 3 ≠ j) :
    (setPixel4 px i r g b a).getD j 0 = px.getD j 0 := by
  unfold setPixel4
  rw [getD_set_of_ne _ _ _ _ h4, getD_set_of_ne _ _ _ _ h3,
    getD_set_of_ne _ _ _ _ h2, getD_set_of_ne _ _ _ _ h1]

/-- A fold preserves any predicate its step preserves. -/
theorem foldl_preserve {α β : Type} (P : β → Prop) (f : β → α → β)
    (l : List α) (b : β) (hf : ∀ b1 a, a ∈ l → P b1 → P (f b1 a))
    (hb : P b) : P (List.foldl f b l) := by
  induction l generalizing b with
  | nil => exact hb
  | cons a t ih =>
    rw [List.foldl_cons]
    exact ih _ (fun b1 x hx => hf b1 x (List.mem_cons_of_mem a hx))
      (hf b a (List.mem_cons_self a t) hb)

/-- Index bound for the pixel at in-bounds coordinates. -/
theorem pixel_index_lt {w h xt yt : ℕ} (hx : xt < w) (hy : yt < h) :
    (yt * w + xt) * 4 + 3 < 4 * (w * h) := by
  have h1 : yt * w + xt < w * h := by
    have h2 : yt * w + w ≤ h * w := by
      have := Nat.succ_le_of_lt hy
      calc yt * w + w = (yt + 1) * w := by ring
        _ ≤ h * w := Nat.mul_le_mul_right w this
    have h3 : yt * w + xt < yt * w + w := by omega
    calc yt * w + xt < yt * w + w := h3
      _ ≤ h * w := h2
      _ = w * h := Nat.mul_comm h w
  omega

theorem blend_length (w h : ℕ) (x y : ℤ) (c : Color) (px : List ℕ) :
    (blend w h x y c px).length = px.length := by
  unfold blend
  split
  · rfl
  · split
    · rfl
    · split <;> simp [length_setPixel4]

theorem blend_getD_high (w h : ℕ) (x y : ℤ) (c : Color) (px : List ℕ)
    (j : ℕ) (hj : 4 * (w * h) ≤ j) :
    (blend w h x y c px).getD j 0 = px.getD j 0 := by
  unfold blend
  split
  · rfl
  · next hin =>
    push_neg at hin
    obtain ⟨hx0, hy0, hxw, hyh⟩ := hin
    have hw : w ≠ 0 := by
      intro hw0
      rw [hw0] at hxw
      omega
    have hh : h ≠ 0 := by
      intro hh0
      rw [hh0] at hyh
      omega
    have hxt : x.toNat < w := (Int.toNat_lt' hw).mpr hxw
    have hyt : y.toNat < h := (Int.toNat_lt' hh).mpr hyh
    have hidx := pixel_index_lt hxt hyt
    split
    · rfl
    · split <;>
        exact getD_setPixel4_of_ne _ _ _ _ _ _ _ (by omega) (by omega)
          (by omega) (by omega)

/-- Length and out-of-canvas bytes are untouched by a `coverageStep`. -/
theorem coverageStep_pres (w h : ℕ) (x y : ℤ) (c : Color) (a : ℚ)
    (px : List ℕ) (j : ℕ) (hj : 4 * (w * h) ≤ j) :
    (coverageStep w h x y c a px).length = px.length ∧
    (coverageStep w h x y c a px).getD j 0 = px.getD j 0 := by
  unfold coverageStep
  split
  · exact ⟨blend_length _ _ _ _ _ _, blend_getD_high _ _ _ _ _ _ _ hj⟩
  · exact ⟨rfl, rfl⟩

/-- Length and out-of-canvas bytes are untouched by a `glowStep`. -/
theorem glowStep_pres (w h : ℕ) (x y : ℤ) (c : Color) (wid feather d : ℚ)
    (px : List ℕ) (j : ℕ) (hj : 4 * (w * h) ≤ j) :
    (glowStep w h x y c wid feather d px).length = px.length ∧
    (glowStep w h x y c wid feather d px).getD j 0 = px.getD j 0 := by
  unfold glowStep
  split
  · exact ⟨blend_length _ _ _ _ _ _, blend_getD_high _ _ _ _ _ _ _ hj⟩
  · exact ⟨rfl, rfl⟩

/-- Length and out-of-canvas bytes are untouched by a `rectStep`. -/
theorem rectStep_pres (w h : ℕ) (x y : ℤ) (c : Color) (thickness ad : ℚ)
    (px : List ℕ) (j : ℕ) (hj : 4 * (w * h) ≤ j) :
    (rectStep w h x y c thickness ad px).length = px.length ∧
    (rectStep w h x y c thickness ad px).getD j 0 = px.getD j 0 := by
  unfold rectStep
  split
  · exact ⟨blend_length _ _ _ _ _ _, blend_getD_high _ _ _ _ _ _ _ hj⟩
  · exact ⟨rfl, rfl⟩

/-- Length and out-of-canvas bytes are untouched by `draw_soft_circle`. -/
theorem draw_soft_circle_pres (sqrtQ : ℚ → ℚ) (w h : ℕ) (cx cy r : ℚ)
    (c : Color) (feather : ℚ) (px : List ℕ) (j : ℕ)
    (hj : 4 * (w * h) ≤ j) :
    (draw_soft_circle sqrtQ w h cx cy r c feather px).length = px.length ∧
    (draw_soft_circle sqrtQ w h cx cy r c feather px).getD j 0 =
      px.getD j 0 := by
  unfold draw_soft_circle
  exact foldl_preserve
    (fun l => l.length = px.length ∧ l.getD j 0 = px.getD j 0) _ _ px
    (fun b (p : ℤ × ℤ) _ hb =>
      ⟨(coverageStep_pres w h p.1 p.2 c _ b j hj).1.trans hb.1,
       (coverageStep_pres w h p.1 p.2 c _ b j hj).2.trans hb.2⟩)
    ⟨rfl, rfl⟩

/-- Length and out-of-canvas bytes are untouched by `draw_ring`. -/
theorem draw_ring_pres (sqrtQ : ℚ → ℚ) (w h : ℕ) (cx cy r thickness : ℚ)
    (c : Color) (feather : ℚ) (px : List ℕ) (j : ℕ)
    (hj : 4 * (w * h) ≤ j) :
    (draw_ring sqrtQ w h cx cy r thickness c feather px).length =
      px.length ∧
    (draw_ring sqrtQ w h cx cy r thickness c feather px).getD j 0 =
      px.getD j 0 := by
  unfold draw_ring
  exact foldl_preserve
    (fun l => l.length = px.length ∧ l.getD j 0 = px.getD j 0) _ _ px
    (fun b (p : ℤ × ℤ) _ hb =>
      ⟨(coverageStep_pres w h p.1 p.2 c _ b j hj).1.trans hb.1,
       (coverageStep_pres w h p.1 p.2 c _ b j hj).2.trans hb.2⟩)
    ⟨rfl, rfl⟩

/-- Length and out-of-canvas bytes are untouched by `draw_diag_glow`. -/
theorem draw_diag_glow_pres (sqrtQ : ℚ → ℚ) (w h : ℕ)
    (ax ay bx by_ wid : ℚ) (c : Color) (feather : ℚ) (px : List ℕ) (j : ℕ)
    (hj : 4 * (w * h) ≤ j) :
    (draw_diag_glow sqrtQ w h ax ay bx by_ wid c feather px).length =
      px.length ∧
    (draw_diag_glow sqrtQ w h ax ay bx by_ wid c feather px).getD j 0 =
      px.getD j 0 := by
  unfold draw_diag_glow
  exact foldl_preserve
    (fun l => l.length = px.length ∧ l.getD j 0 = px.getD j 0) _ _ px
    (fun b (p : ℤ × ℤ) _ hb =>
      ⟨(glowStep_pres w h p.1 p.2 c wid feather _ b j hj).1.trans hb.1,
       (glowStep_pres w h p.1 p.2 c wid feather _ b j hj).2.trans hb.2⟩)
    ⟨rfl, rfl⟩

/-- Length and out-of-canvas bytes are untouched by
`draw_rounded_rect_stroke`. -/
theorem draw_rounded_rect_stroke_pres (sqrtQ : ℚ → ℚ) (w h : ℕ)
    (x y rw rh radius thickness : ℚ) (c : Color) (px : List ℕ) (j : ℕ)
    (hj : 4 * (w * h) ≤ j) :
    (draw_rounded_rect_stroke sqrtQ w h x y rw rh radius thickness c
      px).length = px.length ∧
    (draw_rounded_rect_stroke sqrtQ w h x y rw rh radius thickness c
      px).getD j 0 = px.getD j 0 := by
  unfold draw_rounded_rect_stroke
  exact foldl_preserve
    (fun l => l.length = px.length ∧ l.getD j 0 = px.getD j 0) _ _ px
    (fun b (p : ℤ × ℤ) _ hb =>
      ⟨(rectStep_pres w h p.1 p.2 c thickness _ b j hj).1.trans hb.1,
       (rectStep_pres w h p.1 p.2 c thickness _ b j hj).2.trans hb.2⟩)
    ⟨rfl, rfl⟩

/-- Applying `blend` at out-of-bounds coordinates returns the buffer unchanged. -/
theorem blend_oob (w h : ℕ) (x y : ℤ) (c : Color) (px : List ℕ)
    (hoob : x < 0 ∨ y < 0 ∨ (w : ℤ) ≤ x ∨ (h : ℤ) ≤ y) :
    blend w h x y c px = px := by
  unfold blend
  rw [if_pos hoob]

/-! ### Claim theorems -/

/-- C3: for every coordinate outside `[0,w) × [0,h)` a `blend` call leaves
the canvas buffer byte-for-byte unchanged (and, being a total function,
raises no error); and every shape rasterizer, for arbitrary caller-supplied
geometry, never modifies any byte outside the canvas: the buffer keeps its
length and every byte at an index `≥ 4*w*h` (beyond the last in-bounds
pixel) is unchanged. -/
theorem out_of_bounds_draws_are_noops (sqrtQ : ℚ → ℚ) (w h : ℕ)
    (px : List ℕ) (j : ℕ) :
    (∀ (x y : ℤ) (c : Color),
      (x < 0 ∨ y < 0 ∨ (w : ℤ) ≤ x ∨ (h : ℤ) ≤ y) →
        blend w h x y c px = px) ∧
    (4 * (w * h) ≤ j →
      (∀ (cx cy r feather : ℚ) (c : Color),
        (draw_soft_circle sqrtQ w h cx cy r c feather px).length =
          px.length ∧
        (draw_soft_circle sqrtQ w h cx cy r c feather px).getD j 0 =
          px.getD j 0) ∧
      (∀ (cx cy r thickness feather : ℚ) (c : Color),
        (draw_ring sqrtQ w h cx cy r thickness c feather px).length =
          px.length ∧
        (draw_ring sqrtQ w h cx cy r thickness c feather px).getD j 0 =
          px.getD j 0) ∧
      (∀ (ax ay bx by_ wid feather : ℚ) (c : Color),
        (draw_diag_glow sqrtQ w h ax ay bx by_ wid c feather px).length =
          px.length ∧
        (draw_diag_glow sqrtQ w h ax ay bx by_ wid c feather px).getD j 0 =
          px.getD j 0) ∧
      (∀ (x y rw rh radius thickness : ℚ) (c : Color),
        (draw_rounded_rect_stroke sqrtQ w h x y rw rh radius thickness c
          px).length = px.length ∧
        (draw_rounded_rect_stroke sqrtQ w h x y rw rh radius thickness c
          px).getD j 0 = px.getD j 0)) := by
  refine ⟨fun x y c hoob => blend_oob w h x y c px hoob, fun hj => ⟨?_, ?_, ?_, ?_⟩⟩
  · exact fun cx cy r feather c =>
      draw_soft_circle_pres sqrtQ w h cx cy r c feather px j hj
  · exact fun cx cy r thickness feather c =>
      draw_ring_pres sqrtQ w h cx cy r thickness c feather px j hj
  · exact fun ax ay bx by_ wid feather c =>
      draw_diag_glow_pres sqrtQ w h ax ay bx by_ wid c feather px j hj
  · exact fun x y rw rh radius thickness c =>
      draw_rounded_rect_stroke_pres sqrtQ w h x y rw rh radius thickness c
        px j hj

/-- Witness for C3 at concrete inputs: an out-of-bounds `blend` on a 2×2
canvas is the identity, and a huge disc drawn on a 1×1 canvas leaves the
byte past the canvas end unchanged. -/
theorem out_of_bounds_draws_are_noops_witness :
    blend 2 2 (-1) 0 (9, 9, 9, 9) [1, 2, 3, 4] = [1, 2, 3, 4] ∧
    (draw_soft_circle (fun _ => 0) 1 1 0 0 50 (255, 0, 0, 255) (3/2)
      [1, 2, 3, 4, 77]).getD 4 0 = 77 := by
  constructor
  · exact (out_of_bounds_draws_are_noops (fun _ => 0) 2 2 [1, 2, 3, 4]
      0).1 (-1) 0 (9, 9, 9, 9) (Or.inl (by decide))
  · rw [(((out_of_bounds_draws_are_noops (fun _ => 0) 1 1 [1, 2, 3, 4, 77]
      4).2 (by decide)).1 0 0 50 (3/2) (255, 0, 0, 255)).2]
    decide

/-- With a positive byte source alpha, `out_a` is at least `1/255`. -/
theorem outA_ge {sa da : ℕ} (h1 : 1 ≤ sa) (h2 : sa ≤ 255) :
    1/255 ≤ outA sa da := by
  unfold outA
  have hsa : (1 : ℚ) ≤ (sa : ℚ) := by exact_mod_cast h1
  have hsa2 : (sa : ℚ) ≤ 255 := by exact_mod_cast h2
  have hda : (0 : ℚ) ≤ (da : ℚ) := by positivity
  have h3 : (0 : ℚ) ≤ ((da : ℚ) / 255) * (1 - (sa : ℚ) / 255) := by
    apply mul_nonneg
    · positivity
    · linarith
  linarith

theorem outA_pos {sa da : ℕ} (h1 : 1 ≤ sa) (h2 : sa ≤ 255) :
    0 < outA sa da :=
  lt_of_lt_of_le (by norm_num) (outA_ge h1 h2)

/-- With byte alphas on both sides, `out_a` is at most `1`. -/
theorem outA_le_one {sa da : ℕ} (h2 : sa ≤ 255) (h3 : da ≤ 255) :
    outA sa da ≤ 1 := by
  unfold outA
  have hsa2 : (sa : ℚ) ≤ 255 := by exact_mod_cast h2
  have hda2 : (da : ℚ) ≤ 255 := by exact_mod_cast h3
  have hsa : (0 : ℚ) ≤ (sa : ℚ) := by positivity
  have hda : (0 : ℚ) ≤ (da : ℚ) := by positivity
  nlinarith [mul_nonneg (by linarith : (0:ℚ) ≤ 255 - (da:ℚ))
    (by linarith : (0:ℚ) ≤ 255 - (sa:ℚ))]

/-- The rounded blended channel value is a byte: the numerator never
exceeds 255 times the (positive) denominator. -/
theorem blendComp_le_255 {sa da sc dc : ℕ} (h1 : 1 ≤ sa) (h2 : sa ≤ 255)
    (hsc : sc ≤ 255) (hdc : dc ≤ 255) : blendComp sa da sc dc ≤ 255 := by
  unfold blendComp
  rw [Int.toNat_le]
  apply pyRound_le_of_le
  push_cast
  rw [div_le_iff₀ (outA_pos h1 h2)]
  unfold outA
  have hsa2 : (sa : ℚ) ≤ 255 := by exact_mod_cast h2
  have hsc2 : (sc : ℚ) ≤ 255 := by exact_mod_cast hsc
  have hdc2 : (dc : ℚ) ≤ 255 := by exact_mod_cast hdc
  have hsa : (0 : ℚ) ≤ (sa : ℚ) := by positivity
  have hda : (0 : ℚ) ≤ (da : ℚ) := by positivity
  nlinarith [mul_nonneg (by linarith : (0:ℚ) ≤ 255 - (sc:ℚ)) hsa,
    mul_nonneg (mul_nonneg (by linarith : (0:ℚ) ≤ 255 - (dc:ℚ)) hda)
      (by linarith : (0:ℚ) ≤ 255 - (sa:ℚ))]

/-- The rounded output alpha is a byte. -/
theorem alphaByte_le_255 {sa da : ℕ} (h2 : sa ≤ 255) (h3 : da ≤ 255) :
    (pyRound (outA sa da * 255)).toNat ≤ 255 := by
  rw [Int.toNat_le]
  apply pyRound_le_of_le
  push_cast
  nlinarith [outA_le_one h2 h3]

/-- C9: whenever the compositing arithmetic of `blend` is reached (source
alpha positive, hence at least 1), the output alpha is at least `1/255`,
so the division never divides by zero and the branch that overwrites the
pixel with transparent black is unreachable: `blend` coincides with
`blendSafe`, the same function with that branch removed, for every
byte-valued source alpha. -/
theorem blend_zero_branch_unreachable :
    (∀ sa da : ℕ, 1 ≤ sa → sa ≤ 255 →
      1/255 ≤ outA sa da ∧ ¬ outA sa da ≤ 0) ∧
    (∀ (w h : ℕ) (x y : ℤ) (c : Color) (px : List ℕ), c.2.2.2 ≤ 255 →
      blend w h x y c px = blendSafe w h x y c px) := by
  constructor
  · intro sa da h1 h2
    exact ⟨outA_ge h1 h2, fun hle => absurd (outA_pos h1 h2) (by linarith)⟩
  · intro w h x y c px hsa
    unfold blend blendSafe
    split
    · rfl
    · split
      · rfl
      · next hsa0 =>
        rw [if_neg]
        intro hle
        exact absurd (outA_pos (Nat.one_le_iff_ne_zero.mpr hsa0) hsa)
          (by linarith)

/-- Witness for C9 at concrete inputs. -/
theorem blend_zero_branch_unreachable_witness :
    (1/255 ≤ outA 128 7 ∧ ¬ outA 128 7 ≤ 0) ∧
    blend 1 1 0 0 (1, 2, 3, 4) [9, 9, 9, 9] =
      blendSafe 1 1 0 0 (1, 2, 3, 4) [9, 9, 9, 9] :=
  ⟨blend_zero_branch_unreachable.1 128 7 (by decide) (by decide),
   blend_zero_branch_unreachable.2 1 1 0 0 (1, 2, 3, 4) [9, 9, 9, 9]
     (by decide)⟩

/-- An opaque source channel passes through unchanged. -/
theorem blendComp_opaque (da sc dc : ℕ) : blendComp 255 da sc dc = sc := by
  unfold blendComp outA
  have h1 : ((255 : ℕ) : ℚ) / 255 = 1 := by norm_num
  rw [h1]
  have h2 : ((sc : ℚ) * 1 + (dc : ℚ) * ((da : ℚ) / 255) * (1 - 1)) /
      (1 + (da : ℚ) / 255 * (1 - 1)) = (sc : ℚ) := by ring_nf
  rw [h2]
  have h3 : ((sc : ℚ)) = (((sc : ℤ)) : ℚ) := by push_cast; ring
  rw [h3, pyRound_intCast]
  exact Int.toNat_natCast sc

/-- An opaque source forces output alpha byte 255. -/
theorem alphaByte_opaque (da : ℕ) :
    (pyRound (outA 255 da * 255)).toNat = 255 := by
  unfold outA
  have h1 : ((255 : ℕ) : ℚ) / 255 = 1 := by norm_num
  rw [h1]
  have h2 : ((1 : ℚ) + (da : ℚ) / 255 * (1 - 1)) * 255 = ((255 : ℤ) : ℚ) := by
    push_cast
    ring
  rw [h2, pyRound_intCast]
  rfl

/-- C2: `blend` at in-bounds coordinates satisfies the source-over
contract: a non-positive source alpha preserves the destination exactly;
otherwise the four bytes of the pixel become the rounded Porter-Duff
quotients `blendComp` (channel `round((sc*sa + dc*da*(1-sa)) / oa)` with
normalized alphas) and the rounded output alpha `round(oa*255)`; and an
opaque source (`sa = 255`) replaces the destination pixel with exactly the
source color. -/
theorem blend_source_over_contract (w h : ℕ) (x y : ℤ)
    (sr sg sb sa : ℕ) (px : List ℕ)
    (hx0 : 0 ≤ x) (hxw : x < (w : ℤ)) (hy0 : 0 ≤ y) (hyh : y < (h : ℤ)) :
    (sa = 0 → blend w h x y (sr, sg, sb, sa) px = px) ∧
    (1 ≤ sa → sa ≤ 255 →
      blend w h x y (sr, sg, sb, sa) px =
        setPixel4 px ((y.toNat * w + x.toNat) * 4)
          (blendComp sa (px.getD ((y.toNat * w + x.toNat) * 4 + 3) 0) sr
            (px.getD ((y.toNat * w + x.toNat) * 4) 0))
          (blendComp sa (px.getD ((y.toNat * w + x.toNat) * 4 + 3) 0) sg
            (px.getD ((y.toNat * w + x.toNat) * 4 + 1) 0))
          (blendComp sa (px.getD ((y.toNat * w + x.toNat) * 4 + 3) 0) sb
            (px.getD ((y.toNat * w + x.toNat) * 4 + 2) 0))
          (pyRound (outA sa
            (px.getD ((y.toNat * w + x.toNat) * 4 + 3) 0) * 255)).toNat) ∧
    (sa = 255 → blend w h x y (sr, sg, sb, sa) px =
      setPixel4 px ((y.toNat * w + x.toNat) * 4) sr sg sb 255) := by
  have hoob : ¬ (x < 0 ∨ y < 0 ∨ (w : ℤ) ≤ x ∨ (h : ℤ) ≤ y) := by
    push_neg
    exact ⟨hx0, hy0, hxw, hyh⟩
  have hmain : ∀ sa2 : ℕ, 1 ≤ sa2 → sa2 ≤ 255 →
      blend w h x y (sr, sg, sb, sa2) px =
        setPixel4 px ((y.toNat * w + x.toNat) * 4)
          (blendComp sa2 (px.getD ((y.toNat * w + x.toNat) * 4 + 3) 0) sr
            (px.getD ((y.toNat * w + x.toNat) * 4) 0))
          (blendComp sa2 (px.getD ((y.toNat * w + x.toNat) * 4 + 3) 0) sg
            (px.getD ((y.toNat * w + x.toNat) * 4 + 1) 0))
          (blendComp sa2 (px.getD ((y.toNat * w + x.toNat) * 4 + 3) 0) sb
            (px.getD ((y.toNat * w + x.toNat) * 4 + 2) 0))
          (pyRound (outA sa2
            (px.getD ((y.toNat * w + x.toNat) * 4 + 3) 0) * 255)).toNat := by
    intro sa2 h1 h2
    unfold blend
    rw [if_neg hoob, if_neg (by simp; omega)]
    rw [if_neg (by
      intro hle
      have hle2 : outA sa2 (px.getD ((y.toNat * w + x.toNat) * 4 + 3) 0) ≤
          0 := hle
      exact absurd (outA_pos h1 h2) (by linarith))]
  refine ⟨?_, hmain sa, ?_⟩
  · intro h0
    unfold blend
    rw [if_neg hoob, if_pos h0]
  · intro h255
    subst h255
    rw [hmain 255 (by norm_num) (le_refl 255), blendComp_opaque,
      blendComp_opaque, blendComp_opaque, alphaByte_opaque]

/-- Witness for C2: blending opaque red onto a concrete 1×1 canvas at
`(0,0)` replaces the pixel with red exactly, and a zero-alpha source is a
no-op. -/
theorem blend_source_over_contract_witness :
    blend 1 1 0 0 (255, 0, 0, 0) [7, 8, 9, 200] = [7, 8, 9, 200] ∧
    blend 1 1 0 0 (255, 10, 20, 255) [7, 8, 9, 200] =
      setPixel4 [7, 8, 9, 200] 0 255 10 20 255 := by
  constructor
  · exact (blend_source_over_contract 1 1 0 0 255 0 0 0 [7, 8, 9, 200]
      (by decide) (by decide) (by decide) (by decide)).1 rfl
  · exact (blend_source_over_contract 1 1 0 0 255 10 20 255 [7, 8, 9, 200]
      (by decide) (by decide) (by decide) (by decide)).2.2 rfl

/-- Every stored byte of the buffer is in `[0, 255]`. -/
def bytesOK (px : List ℕ) : Prop := ∀ b ∈ px, b ≤ 255

/-- All four components of a color are bytes. -/
def colorOK (c : Color) : Prop :=
  c.1 ≤ 255 ∧ c.2.1 ≤ 255 ∧ c.2.2.1 ≤ 255 ∧ c.2.2.2 ≤ 255

theorem bytesOK_getD {px : List ℕ} (h : bytesOK px) (i : ℕ) :
    px.getD i 0 ≤ 255 := by
  rw [List.getD_eq_getElem?_getD]
  cases hcell : px[i]? with
  | none => exact Nat.zero_le 255
  | some v =>
    exact h v (List.getElem?_mem hcell)

theorem bytesOK_set {px : List ℕ} (h : bytesOK px) {v : ℕ} (hv : v ≤ 255)
    (i : ℕ) : bytesOK (px.set i v) := by
  intro b hb
  rcases List.mem_or_eq_of_mem_set hb with hmem | heq
  · exact h b hmem
  · exact heq ▸ hv

theorem bytesOK_setPixel4 {px : List ℕ} (h : bytesOK px) {r g b a : ℕ}
    (hr : r ≤ 255) (hg : g ≤ 255) (hb : b ≤ 255) (ha : a ≤ 255) (i : ℕ) :
    bytesOK (setPixel4 px i r g b a) := by
  unfold setPixel4
  exact bytesOK_set (bytesOK_set (bytesOK_set (bytesOK_set h hr i) hg
    (i + 1)) hb (i + 2)) ha (i + 3)

/-- Applying `blend` keeps every byte of the buffer in `[0, 255]` when the blended
color is byte-valued. -/
theorem bytesOK_blend {c : Color} {px : List ℕ} (hpx : bytesOK px)
    (hc : colorOK c) (w h : ℕ) (x y : ℤ) :
    bytesOK (blend w h x y c px) := by
  obtain ⟨hr, hg, hb, ha⟩ := hc
  unfold blend
  split
  · exact hpx
  · split
    · exact hpx
    · next hsa0 =>
      split
      · exact bytesOK_setPixel4 hpx (by norm_num) (by norm_num)
          (by norm_num) (by norm_num) _
      · have h1 : 1 ≤ c.2.2.2 := Nat.one_le_iff_ne_zero.mpr hsa0
        exact bytesOK_setPixel4 hpx
          (blendComp_le_255 h1 ha hr (bytesOK_getD hpx _))
          (blendComp_le_255 h1 ha hg (bytesOK_getD hpx _))
          (blendComp_le_255 h1 ha hb (bytesOK_getD hpx _))
          (alphaByte_le_255 ha (bytesOK_getD hpx _)) _

/-- The scaled alpha `int(ca * a)` is a byte whenever the coverage is at
most one. -/
theorem scaled_alpha_le {ca : ℕ} {a : ℚ} (hca : ca ≤ 255) (ha : a ≤ 1) :
    (pyInt ((ca : ℚ) * a)).toNat ≤ 255 := by
  rw [Int.toNat_le]
  apply pyInt_le_of_le
  push_cast
  have h1 : (ca : ℚ) * a ≤ (ca : ℚ) * 1 :=
    mul_le_mul_of_nonneg_left ha (by positivity)
  have h2 : (ca : ℚ) ≤ 255 := by exact_mod_cast hca
  linarith

/-- Clamping to `[0, 1]` stays at most one. -/
theorem clamp01_le_one (q : ℚ) : max 0 (min 1 q) ≤ 1 :=
  max_le (by norm_num) (min_le_left 1 q)

theorem softCircleCoverage_le_one (r feather d : ℚ) :
    softCircleCoverage r feather d ≤ 1 := by
  unfold softCircleCoverage
  split
  · exact le_refl 1
  · split
    · exact clamp01_le_one _
    · norm_num

theorem ringCoverage_le_one (r thickness feather d : ℚ) :
    ringCoverage r thickness feather d ≤ 1 := by
  unfold ringCoverage
  split
  · exact le_refl 1
  · split
    · refine le_trans (min_le_left _ _) ?_
      unfold ringAOut
      split
      · exact le_refl 1
      · exact clamp01_le_one _
    · norm_num

theorem glowCoverage_le_one (wid feather d : ℚ) :
    glowCoverage wid feather d ≤ 1 := by
  unfold glowCoverage
  split
  · exact le_refl 1
  · exact clamp01_le_one _

/-- A `coverageStep` keeps the buffer byte-valued for byte colors and
coverage at most one. -/
theorem bytesOK_coverageStep {c : Color} {px : List ℕ} {a : ℚ}
    (hpx : bytesOK px) (hc : colorOK c) (ha : a ≤ 1) (w h : ℕ) (x y : ℤ) :
    bytesOK (coverageStep w h x y c a px) := by
  unfold coverageStep
  split
  · refine bytesOK_blend hpx ?_ w h x y
    exact ⟨hc.1, hc.2.1, hc.2.2.1, scaled_alpha_le hc.2.2.2 ha⟩
  · exact hpx

theorem bytesOK_glowStep {c : Color} {px : List ℕ} {wid feather d : ℚ}
    (hpx : bytesOK px) (hc : colorOK c) (w h : ℕ) (x y : ℤ) :
    bytesOK (glowStep w h x y c wid feather d px) := by
  unfold glowStep
  split
  · refine bytesOK_blend hpx ?_ w h x y
    exact ⟨hc.1, hc.2.1, hc.2.2.1,
      scaled_alpha_le hc.2.2.2 (glowCoverage_le_one wid feather d)⟩
  · exact hpx

theorem bytesOK_rectStep {c : Color} {px : List ℕ} {thickness ad : ℚ}
    (hpx : bytesOK px) (hc : colorOK c) (had : 0 ≤ ad) (w h : ℕ)
    (x y : ℤ) : bytesOK (rectStep w h x y c thickness ad px) := by
  unfold rectStep
  split
  · refine bytesOK_blend hpx ?_ w h x y
    refine ⟨hc.1, hc.2.1, hc.2.2.1, scaled_alpha_le hc.2.2.2 ?_⟩
    have hq : 0 ≤ ad / max 1 thickness :=
      div_nonneg had (le_trans (by norm_num) (le_max_left 1 thickness))
    exact max_le (by norm_num) (by linarith)
  · exact hpx

theorem canvasFill_length (n : ℕ) (bg : Color) :
    (canvasFill n bg).length = n * 4 := by
  induction n with
  | zero => rfl
  | succ k ih =>
    simp only [canvasFill, List.length_cons, ih]
    ring

theorem bytesOK_canvasFill (n : ℕ) {bg : Color} (hbg : colorOK bg) :
    bytesOK (canvasFill n bg) := by
  induction n with
  | zero => intro b hb; cases hb
  | succ k ih =>
    intro b hb
    simp only [canvasFill, List.mem_cons] at hb
    rcases hb with rfl | rfl | rfl | rfl | hmem
    · exact hbg.1
    · exact hbg.2.1
    · exact hbg.2.2.1
    · exact hbg.2.2.2
    · exact ih b hmem

theorem lerp_byte_le {a b : ℕ} (ha : a ≤ 255) (hb : b ≤ 255) {t : ℚ}
    (ht0 : 0 ≤ t) (ht1 : t ≤ 1) : (pyRound (lerp a b t)).toNat ≤ 255 := by
  rw [Int.toNat_le]
  apply pyRound_le_of_le
  unfold lerp
  push_cast
  have ha2 : (a : ℚ) ≤ 255 := by exact_mod_cast ha
  have hb2 : (b : ℚ) ≤ 255 := by exact_mod_cast hb
  nlinarith

theorem mix_colorOK {c1 c2 : Color} (h1 : colorOK c1) (h2 : colorOK c2)
    {t : ℚ} (ht0 : 0 ≤ t) (ht1 : t ≤ 1) : colorOK (mix c1 c2 t) :=
  ⟨lerp_byte_le h1.1 h2.1 ht0 ht1, lerp_byte_le h1.2.1 h2.2.1 ht0 ht1,
   lerp_byte_le h1.2.2.1 h2.2.2.1 ht0 ht1,
   lerp_byte_le h1.2.2.2 h2.2.2.2 ht0 ht1⟩

/-- The fill `fill_linear_gradient` preserves the buffer length and, for byte
colors, keeps every byte in range. -/
theorem fill_linear_gradient_pres (w h : ℕ) (c1 c2 : Color)
    (px : List ℕ) :
    (fill_linear_gradient w h c1 c2 px).length = px.length ∧
    (bytesOK px → colorOK c1 → colorOK c2 →
      bytesOK (fill_linear_gradient w h c1 c2 px)) := by
  constructor
  · unfold fill_linear_gradient
    refine foldl_preserve (fun l => l.length = px.length) _ _ px
      (fun b1 (y : ℕ) _ hb1 => ?_) rfl
    refine foldl_preserve (fun l => l.length = px.length) _ _ b1
      (fun b2 (x : ℕ) _ hb2 => ?_) hb1
    exact (length_setPixel4 _ _ _ _ _ _).trans hb2
  · intro hpx hc1 hc2
    unfold fill_linear_gradient
    refine foldl_preserve bytesOK _ _ px (fun b1 (y : ℕ) _ hb1 => ?_) hpx
    refine foldl_preserve bytesOK _ _ b1 (fun b2 (x : ℕ) _ hb2 => ?_) hb1
    exact bytesOK_setPixel4 hb2
      (mix_colorOK hc1 hc2 (le_max_left 0 _) (clamp01_le_one _)).1
      (mix_colorOK hc1 hc2 (le_max_left 0 _) (clamp01_le_one _)).2.1
      (mix_colorOK hc1 hc2 (le_max_left 0 _) (clamp01_le_one _)).2.2.1
      (mix_colorOK hc1 hc2 (le_max_left 0 _) (clamp01_le_one _)).2.2.2 _

theorem bytesOK_draw_soft_circle (sqrtQ : ℚ → ℚ) (w h : ℕ) (cx cy r : ℚ)
    {c : Color} (feather : ℚ) {px : List ℕ} (hpx : bytesOK px)
    (hc : colorOK c) :
    bytesOK (draw_soft_circle sqrtQ w h cx cy r c feather px) := by
  unfold draw_soft_circle
  exact foldl_preserve bytesOK _ _ px
    (fun b (p : ℤ × ℤ) _ hb =>
      bytesOK_coverageStep hb hc (softCircleCoverage_le_one r feather _)
        w h p.1 p.2)
    hpx

theorem bytesOK_draw_ring (sqrtQ : ℚ → ℚ) (w h : ℕ)
    (cx cy r thickness : ℚ) {c : Color} (feather : ℚ) {px : List ℕ}
    (hpx : bytesOK px) (hc : colorOK c) :
    bytesOK (draw_ring sqrtQ w h cx cy r thickness c feather px) := by
  unfold draw_ring
  exact foldl_preserve bytesOK _ _ px
    (fun b (p : ℤ × ℤ) _ hb =>
      bytesOK_coverageStep hb hc (ringCoverage_le_one r thickness feather _)
        w h p.1 p.2)
    hpx

theorem bytesOK_draw_diag_glow (sqrtQ : ℚ → ℚ) (w h : ℕ)
    (ax ay bx by_ wid : ℚ) {c : Color} (feather : ℚ) {px : List ℕ}
    (hpx : bytesOK px) (hc : colorOK c) :
    bytesOK (draw_diag_glow sqrtQ w h ax ay bx by_ wid c feather px) := by
  unfold draw_diag_glow
  exact foldl_preserve bytesOK _ _ px
    (fun b (p : ℤ × ℤ) _ hb => bytesOK_glowStep hb hc w h p.1 p.2)
    hpx

theorem bytesOK_draw_rounded_rect_stroke (sqrtQ : ℚ → ℚ) (w h : ℕ)
    (x y rw rh radius thickness : ℚ) {c : Color} {px : List ℕ}
    (hpx : bytesOK px) (hc : colorOK c) :
    bytesOK (draw_rounded_rect_stroke sqrtQ w h x y rw rh radius thickness
      c px) := by
  unfold draw_rounded_rect_stroke
  exact foldl_preserve bytesOK _ _ px
    (fun b (p : ℤ × ℤ) _ hb =>
      bytesOK_rectStep hb hc (abs_nonneg _) w h p.1 p.2)
    hpx

/-- C10: every operation preserves the canvas invariants — the buffer of
`make_canvas` has length exactly `w*h*4` and stays byte-valued for a byte
background; gradient fill and all four rasterizers preserve the buffer
length and keep every stored component in `[0, 255]` (for byte-valued
colors); and the rounded quotient computed by `blend` for each channel
always lies in `[0, 255]`. -/
theorem canvas_invariants_preserved (sqrtQ : ℚ → ℚ) :
    (∀ (w h : ℕ) (bg : Color),
      (make_canvas w h bg).length = w * h * 4 ∧
      (colorOK bg → bytesOK (make_canvas w h bg))) ∧
    (∀ (w h : ℕ) (c1 c2 : Color) (px : List ℕ),
      (fill_linear_gradient w h c1 c2 px).length = px.length ∧
      (bytesOK px → colorOK c1 → colorOK c2 →
        bytesOK (fill_linear_gradient w h c1 c2 px))) ∧
    (∀ (w h : ℕ) (cx cy r feather : ℚ) (c : Color) (px : List ℕ),
      (draw_soft_circle sqrtQ w h cx cy r c feather px).length =
        px.length ∧
      (bytesOK px → colorOK c →
        bytesOK (draw_soft_circle sqrtQ w h cx cy r c feather px))) ∧
    (∀ (w h : ℕ) (cx cy r thickness feather : ℚ) (c : Color)
        (px : List ℕ),
      (draw_ring sqrtQ w h cx cy r thickness c feather px).length =
        px.length ∧
      (bytesOK px → colorOK c →
        bytesOK (draw_ring sqrtQ w h cx cy r thickness c feather px))) ∧
    (∀ (w h : ℕ) (ax ay bx by_ wid feather : ℚ) (c : Color)
        (px : List ℕ),
      (draw_diag_glow sqrtQ w h ax ay bx by_ wid c feather px).length =
        px.length ∧
      (bytesOK px → colorOK c →
        bytesOK (draw_diag_glow sqrtQ w h ax ay bx by_ wid c feather px))) ∧
    (∀ (w h : ℕ) (x y rw rh radius thickness : ℚ) (c : Color)
        (px : List ℕ),
      (draw_rounded_rect_stroke sqrtQ w h x y rw rh radius thickness c
        px).length = px.length ∧
      (bytesOK px → colorOK c →
        bytesOK (draw_rounded_rect_stroke sqrtQ w h x y rw rh radius
          thickness c px))) ∧
    (∀ sa da sc dc : ℕ, 1 ≤ sa → sa ≤ 255 → sc ≤ 255 → dc ≤ 255 →
      blendComp sa da sc dc ≤ 255) := by
  refine ⟨?_, ?_, ?_, ?_, ?_, ?_, ?_⟩
  · intro w h bg
    exact ⟨canvasFill_length (w * h) bg, fun hbg =>
      bytesOK_canvasFill (w * h) hbg⟩
  · intro w h c1 c2 px
    exact fill_linear_gradient_pres w h c1 c2 px
  · intro w h cx cy r feather c px
    exact ⟨(draw_soft_circle_pres sqrtQ w h cx cy r c feather px
        (4 * (w * h)) (le_refl _)).1,
      fun hpx hc => bytesOK_draw_soft_circle sqrtQ w h cx cy r feather
        hpx hc⟩
  · intro w h cx cy r thickness feather c px
    exact ⟨(draw_ring_pres sqrtQ w h cx cy r thickness c feather px
        (4 * (w * h)) (le_refl _)).1,
      fun hpx hc => bytesOK_draw_ring sqrtQ w h cx cy r thickness feather
        hpx hc⟩
  · intro w h ax ay bx by_ wid feather c px
    exact ⟨(draw_diag_glow_pres sqrtQ w h ax ay bx by_ wid c feather px
        (4 * (w * h)) (le_refl _)).1,
      fun hpx hc => bytesOK_draw_diag_glow sqrtQ w h ax ay bx by_ wid
        feather hpx hc⟩
  · intro w h x y rw rh radius thickness c px
    exact ⟨(draw_rounded_rect_stroke_pres sqrtQ w h x y rw rh radius
        thickness c px (4 * (w * h)) (le_refl _)).1,
      fun hpx hc => bytesOK_draw_rounded_rect_stroke sqrtQ w h x y rw rh
        radius thickness hpx hc⟩
  · intro sa da sc dc h1 h2 h3 h4
    exact blendComp_le_255 h1 h2 h3 h4

/-- Witness for C10 at concrete inputs: a 2×2 opaque canvas stays a valid
byte buffer of length 16 after drawing a disc, and a concrete blended
channel quotient is a byte. -/
theorem canvas_invariants_preserved_witness :
    (make_canvas 2 2 (1, 2, 3, 255)).length = 16 ∧
    bytesOK (draw_soft_circle (fun _ => 0) 2 2 1 1 5 (255, 0, 0, 200) 1
      (make_canvas 2 2 (1, 2, 3, 255))) ∧
    blendComp 128 128 10 100 ≤ 255 := by
  refine ⟨((canvas_invariants_preserved (fun _ => 0)).1 2 2
    (1, 2, 3, 255)).1, ?_, ?_⟩
  · exact (((canvas_invariants_preserved (fun _ => 0)).2.2.1 2 2 1 1 5 1
      (255, 0, 0, 200) (make_canvas 2 2 (1, 2, 3, 255))).2
      (by unfold bytesOK; decide) (by unfold colorOK; decide))
  · exact (canvas_invariants_preserved (fun _ => 0)).2.2.2.2.2.2 128 128
      10 100 (by decide) (by decide) (by decide) (by decide)

/-- Clamping to `[0, 1]` is monotone. -/
theorem clamp01_mono {a b : ℚ} (h : a ≤ b) :
    max 0 (min 1 a) ≤ max 0 (min 1 b) :=
  max_le_max (le_refl 0) (min_le_min (le_refl 1) h)

/-- C4: the soft disc coverage, as a function of the distance `d` from
the pixel center to the disc center, is monotonically non-increasing in
`d`, equals exactly 1 for `d ≤ r - f`, follows the clamped linear ramp
`(r + f - d) / (2f)` for `d` between `r - f` and `r + f`, and equals
exactly 0 for `d ≥ r + f` (for a positive feather `f`). -/
theorem soft_circle_coverage_profile (r f d1 d2 d : ℚ) (hf : 0 < f) :
    (d1 ≤ d2 →
      softCircleCoverage r f d2 ≤ softCircleCoverage r f d1) ∧
    (d ≤ r - f → softCircleCoverage r f d = 1) ∧
    (r - f ≤ d → d ≤ r + f →
      softCircleCoverage r f d = max 0 (min 1 ((r + f - d) / (2 * f)))) ∧
    (r + f ≤ d → softCircleCoverage r f d = 0) := by
  have hcov_nonneg : ∀ e : ℚ, 0 ≤ softCircleCoverage r f e := by
    intro e
    unfold softCircleCoverage
    split
    · norm_num
    · split
      · exact le_max_left 0 _
      · exact le_refl 0
  refine ⟨?_, ?_, ?_, ?_⟩
  · intro h12
    unfold softCircleCoverage
    split
    · next h2 =>
      rw [if_pos (le_trans h12 h2)]
    · split
      · next h2a h2b =>
        split
        · exact clamp01_le_one _
        · split
          · exact clamp01_mono (by
              apply div_le_div_of_nonneg_right _ (by linarith)
              linarith)
          · next h1a h1b =>
            exact absurd (le_trans h12 h2b) h1b
      · next h2a h2b =>
        split
        · norm_num
        · split
          · exact le_max_left 0 _
          · exact le_refl 0
  · intro hd
    unfold softCircleCoverage
    rw [if_pos hd]
  · intro hd1 hd2
    unfold softCircleCoverage
    split
    · next hin =>
      have hge1 : (1 : ℚ) ≤ (r + f - d) / (2 * f) := by
        rw [le_div_iff₀ (by linarith)]
        linarith
      rw [min_eq_left hge1, max_eq_right (by norm_num : (0:ℚ) ≤ 1)]
    · rfl
  · intro hd
    unfold softCircleCoverage
    rw [if_neg (by intro hle; linarith)]
    split
    · next hle =>
      have hde : d = r + f := le_antisymm hle hd
      subst hde
      have hz : (r + f - (r + f)) / (2 * f) = 0 := by
        rw [sub_self, zero_div]
      rw [hz]
      norm_num
    · rfl

/-- Witness for C4 at concrete inputs (`r = 5`, `f = 1`). -/
theorem soft_circle_coverage_profile_witness :
    softCircleCoverage 5 1 6 ≤ softCircleCoverage 5 1 2 ∧
    softCircleCoverage 5 1 3 = 1 ∧
    softCircleCoverage 5 1 5 = max 0 (min 1 ((5 + 1 - 5) / (2 * 1))) ∧
    softCircleCoverage 5 1 7 = 0 := by
  have h := soft_circle_coverage_profile 5 1 2 6 5 (by norm_num)
  have h2 := soft_circle_coverage_profile 5 1 2 6 3 (by norm_num)
  have h3 := soft_circle_coverage_profile 5 1 2 6 7 (by norm_num)
  exact ⟨h.1 (by norm_num), h2.2.1 (by norm_num),
    h.2.2.1 (by norm_num) (by norm_num), h3.2.2.2 (by norm_num)⟩

/-- Counterexample to C5 as stated: for the ring `r = 1`,
`thickness = 10`, `feather = 2` we have `thickness ≥ 2*feather`, yet the
coverage at the centerline distance `d = r` is `3/4`, not `1` (the inner
radius is clamped to `0`, so the inner fade band reaches past the
centerline). -/
theorem ring_centerline_not_full_coverage :
    2 * (2 : ℚ) ≤ 10 ∧ ringCoverage 1 10 2 1 = 3/4 ∧
      ringCoverage 1 10 2 1 ≠ 1 := by
  refine ⟨by norm_num, ?_, ?_⟩ <;>
    norm_num [ringCoverage, ringAOut, ringAIn, ringOuter, ringInner]

/-- C5 amended: the ring coverage at the centerline distance `d = r` is
exactly 1 whenever `thickness ≥ 2*feather` and additionally
`feather ≤ r`. -/
theorem ring_centerline_full_coverage (r thickness f : ℚ)
    (hth : 2 * f ≤ thickness) (hfr : f ≤ r) :
    ringCoverage r thickness f r = 1 := by
  have h1 : ringInner r thickness + f ≤ r := by
    unfold ringInner
    have hmax := max_le (show (0 : ℚ) ≤ r - f by linarith)
      (show r - thickness / 2 ≤ r - f by linarith)
    linarith
  have h2 : r ≤ ringOuter r thickness - f := by
    unfold ringOuter
    linarith
  unfold ringCoverage
  rw [if_pos ⟨h1, h2⟩]

/-- Witness for the amended C5 at a concrete ring. -/
theorem ring_centerline_full_coverage_witness :
    2 * (1 : ℚ) ≤ 4 ∧ (1 : ℚ) ≤ 2 ∧ ringCoverage 2 4 1 2 = 1 :=
  ⟨by norm_num, by norm_num,
   ring_centerline_full_coverage 2 4 1 (by norm_num) (by norm_num)⟩

/-- Counterexample to C6 as stated: neither invalid construction input is
rejected. `make_canvas` with width 0 silently returns an empty buffer
(a value, not an error), and `chunk` with a 3-byte tag silently produces
an 11-byte malformed chunk (a value, not an error). -/
theorem construction_inputs_not_rejected_counterexample :
    make_canvas 0 5 (1, 2, 3, 4) = [] ∧
    (chunk [65, 66, 67] []).length = 11 := by
  constructor
  · rfl
  · decide

/-- C6 amended: canvas construction with a zero dimension silently
returns an empty buffer, and chunk construction accepts a tag of any
length, emitting `length ++ tag ++ payload ++ checksum` without any
validation; no input condition is actively rejected by the core. -/
theorem construction_inputs_not_rejected (h : ℕ) (bg : Color)
    (tag data : List ℕ) :
    make_canvas 0 h bg = [] ∧
    (chunk tag data).length = 8 + tag.length + data.length := by
  constructor
  · unfold make_canvas
    rw [Nat.zero_mul]
    rfl
  · unfold chunk be32
    simp [List.length_append]
    omega

/-- The ASCII bytes of `b'TEST'`. -/
def testTag : List ℕ := [84, 69, 83, 84]

/-- C7: `chunk(tag, payload)` is the concatenation of the big-endian
4-byte payload length, the tag, the payload and the big-endian 4-byte
CRC-32 over `tag ++ payload`; in particular `chunk(b'TEST', b'')` is
exactly 12 bytes — zero length, the tag, and the checksum of the tag
alone. -/
theorem chunk_layout (tag data : List ℕ)
    (hlen : data.length < 4294967296) :
    chunk tag data =
      be32 data.length ++ tag ++ data ++
        be32 (crc32 (tag ++ data) % 4294967296) ∧
    chunk testTag [] =
      be32 0 ++ testTag ++ be32 (crc32 testTag % 4294967296) ∧
    (chunk testTag []).length = 12 := by
  refine ⟨?_, ?_, ?_⟩
  · unfold chunk
    rw [Nat.mod_eq_of_lt hlen]
  · decide
  · decide

/-- Witness for C7 at a concrete one-byte payload. -/
theorem chunk_layout_witness :
    ([(7 : ℕ)].length < 4294967296) ∧
    chunk testTag [7] =
      be32 [(7 : ℕ)].length ++ testTag ++ [7] ++
        be32 (crc32 (testTag ++ [7]) % 4294967296) :=
  ⟨by norm_num, (chunk_layout testTag [7] (by norm_num)).1⟩

/-- Mixing at `t = 0` returns the first color unchanged. -/
theorem mix_zero (c1 c2 : Color) :
    mix c1 c2 0 = (c1.1, c1.2.1, c1.2.2.1, c1.2.2.2) := by
  unfold mix lerp
  simp [mul_zero, add_zero, pyRound_natCast, Int.toNat_natCast]

/-- C8: `fill_linear_gradient` on a 1×1 canvas (where the `max 1 (w-1)`
guard prevents division by zero) sets the single pixel to exactly the
top-left color: the degenerate normalized coordinates give `t = 0` and
`mix` returns the first color unchanged; the pixel is directly set, so
any prior buffer content of the pixel is overwritten. -/
theorem fill_gradient_1x1 (c_tl c_br : Color) (px : List ℕ)
    (hlen : px.length = 4) :
    fill_linear_gradient 1 1 c_tl c_br px =
      [c_tl.1, c_tl.2.1, c_tl.2.2.1, c_tl.2.2.2] := by
  rcases px with _ | ⟨a0, t0⟩
  · simp only [List.length_nil] at hlen
    omega
  rcases t0 with _ | ⟨a1, t1⟩
  · simp only [List.length_cons, List.length_nil] at hlen
    omega
  rcases t1 with _ | ⟨a2, t2⟩
  · simp only [List.length_cons, List.length_nil] at hlen
    omega
  rcases t2 with _ | ⟨a3, t3⟩
  · simp only [List.length_cons, List.length_nil] at hlen
    omega
  rcases t3 with _ | ⟨a4, t4⟩
  swap
  · simp only [List.length_cons] at hlen
    omega
  unfold fill_linear_gradient
  have hr : List.range 1 = [0] := rfl
  rw [hr, List.foldl_cons, List.foldl_nil]
  simp only [List.foldl_cons, List.foldl_nil]
  norm_num
  rw [mix_zero]
  rfl

/-- Witness for C8 at a concrete 1×1 canvas. -/
theorem fill_gradient_1x1_witness :
    fill_linear_gradient 1 1 (9, 8, 7, 6) (200, 201, 202, 203)
      [0, 0, 0, 0] = [9, 8, 7, 6] :=
  fill_gradient_1x1 (9, 8, 7, 6) (200, 201, 202, 203) [0, 0, 0, 0] rfl

/-- Encoding with `be32` always yields 4 bytes. -/
theorem be32_length (n : ℕ) : (be32 n).length = 4 := rfl

/-- Reading back a 4-byte big-endian value below `2^32` is exact. -/
theorem parseBE32_be32 {n : ℕ} (hn : n < 4294967296) :
    parseBE32 (be32 n) = n := by
  unfold parseBE32 be32
  simp only [List.getD_cons_zero, List.getD_cons_succ]
  omega

/-- Parsing the front of `chunk tag data ++ rest` recovers the tag, the
payload and the remainder, and the stored CRC validates. -/
theorem parseChunk_chunk (tag data rest : List ℕ) (htag : tag.length = 4)
    (hlen : data.length < 4294967296) :
    parseChunk (chunk tag data ++ rest) = some ((tag, data), rest) := by
  have hmod : data.length % 4294967296 = data.length := Nat.mod_eq_of_lt hlen
  have hassoc : chunk tag data ++ rest =
      be32 (data.length % 4294967296) ++ (tag ++ (data ++
        (be32 (crc32 (tag ++ data) % 4294967296) ++ rest))) := by
    simp [chunk, List.append_assoc]
  have e1 : (chunk tag data ++ rest).take 4 =
      be32 (data.length % 4294967296) := by
    rw [hassoc]
    exact List.take_left' (be32_length _)
  have edrop4 : (chunk tag data ++ rest).drop 4 =
      tag ++ (data ++ (be32 (crc32 (tag ++ data) % 4294967296) ++ rest)) := by
    rw [hassoc]
    exact List.drop_left' (be32_length _)
  have e2 : ((chunk tag data ++ rest).drop 4).take 4 = tag := by
    rw [edrop4]
    exact List.take_left' htag
  have edrop8 : (chunk tag data ++ rest).drop 8 =
      data ++ (be32 (crc32 (tag ++ data) % 4294967296) ++ rest) := by
    have h48 : (8 : ℕ) = 4 + 4 := rfl
    rw [h48, ← List.drop_drop, edrop4]
    exact List.drop_left' htag
  have e3 : ((chunk tag data ++ rest).drop 8).take data.length = data := by
    rw [edrop8]
    exact List.take_left' rfl
  have edropc : (chunk tag data ++ rest).drop (8 + data.length) =
      be32 (crc32 (tag ++ data) % 4294967296) ++ rest := by
    rw [← List.drop_drop, edrop8]
    exact List.drop_left' rfl
  have e4 : ((chunk tag data ++ rest).drop (8 + data.length)).take 4 =
      be32 (crc32 (tag ++ data) % 4294967296) := by
    rw [edropc]
    exact List.take_left' (be32_length _)
  have e5 : (chunk tag data ++ rest).drop (12 + data.length) = rest := by
    have h12 : 12 + data.length = 8 + data.length + 4 := by omega
    rw [h12, ← List.drop_drop, edropc]
    exact List.drop_left' (be32_length _)
  have elen : (chunk tag data ++ rest).length =
      12 + data.length + rest.length := by
    simp [chunk, List.length_append, be32_length, htag]
    omega
  unfold parseChunk
  rw [e1, parseBE32_be32 (by omega), hmod, e2, e3, e4, e5, elen]
  rw [if_neg (by omega), if_pos rfl]

/-- C1: the encoder output starts with the fixed 8-byte signature and is
exactly the signature followed by three chunks — the header chunk with
payload `be32 w ++ be32 h ++ [8, 6, 0, 0, 0]`, the data chunk wrapping
`compress (filterScanlines ...)`, and the empty terminator chunk; parsing
the chunks back (with CRC validation) recovers exactly those three
chunks and nothing else, and parsing the header chunk yields the same
width and height the canvas was constructed with. -/
theorem encode_round_trip (compress : List ℕ → List ℕ) (w h : ℕ)
    (rgba : List ℕ) (hw : w < 4294967296) (hh : h < 4294967296)
    (hc : (compress (filterScanlines w h rgba)).length < 4294967296) :
    (encodePng compress w h rgba).take 8 = pngSig ∧
    encodePng compress w h rgba =
      pngSig ++ chunk ihdrTag (be32 w ++ be32 h ++ [8, 6, 0, 0, 0]) ++
        chunk idatTag (compress (filterScanlines w h rgba)) ++
        chunk iendTag [] ∧
    parseChunk ((encodePng compress w h rgba).drop 8) =
      some ((ihdrTag, be32 w ++ be32 h ++ [8, 6, 0, 0, 0]),
        chunk idatTag (compress (filterScanlines w h rgba)) ++
          chunk iendTag []) ∧
    parseChunk (chunk idatTag (compress (filterScanlines w h rgba)) ++
        chunk iendTag []) =
      some ((idatTag, compress (filterScanlines w h rgba)),
        chunk iendTag []) ∧
    parseChunk (chunk iendTag []) = some ((iendTag, []), []) ∧
    parseHeaderWH (encodePng compress w h rgba) = some (w, h) := by
  have hassoc : encodePng compress w h rgba =
      pngSig ++ (chunk ihdrTag (be32 w ++ be32 h ++ [8, 6, 0, 0, 0]) ++
        (chunk idatTag (compress (filterScanlines w h rgba)) ++
          chunk iendTag [])) := by
    simp [encodePng, List.append_assoc]
  have hsig : pngSig.length = 8 := rfl
  have hdrlen : (be32 w ++ be32 h ++ [8, 6, 0, 0, 0]).length = 13 := by
    simp [be32_length]
  have hdrop8 : (encodePng compress w h rgba).drop 8 =
      chunk ihdrTag (be32 w ++ be32 h ++ [8, 6, 0, 0, 0]) ++
        (chunk idatTag (compress (filterScanlines w h rgba)) ++
          chunk iendTag []) := by
    rw [hassoc]
    exact List.drop_left' hsig
  have hparse1 : parseChunk ((encodePng compress w h rgba).drop 8) =
      some ((ihdrTag, be32 w ++ be32 h ++ [8, 6, 0, 0, 0]),
        chunk idatTag (compress (filterScanlines w h rgba)) ++
          chunk iendTag []) := by
    rw [hdrop8]
    exact parseChunk_chunk ihdrTag _ _ rfl (by rw [hdrlen]; norm_num)
  have hparse2 : parseChunk (chunk idatTag
      (compress (filterScanlines w h rgba)) ++ chunk iendTag []) =
      some ((idatTag, compress (filterScanlines w h rgba)),
        chunk iendTag []) :=
    parseChunk_chunk idatTag _ _ rfl hc
  have hparse3 : parseChunk (chunk iendTag []) =
      some ((iendTag, []), []) := by
    have h0 := parseChunk_chunk iendTag [] [] rfl (by norm_num)
    rwa [List.append_nil] at h0
  refine ⟨?_, ?_, hparse1, hparse2, hparse3, ?_⟩
  · rw [hassoc]
    exact List.take_left' hsig
  · rw [hassoc]
    simp [List.append_assoc]
  · unfold parseHeaderWH
    rw [hparse1]
    dsimp only
    rw [if_pos rfl]
    have htw : (be32 w ++ be32 h ++ [8, 6, 0, 0, 0]).take 4 = be32 w := by
      rw [List.append_assoc]
      exact List.take_left' (be32_length w)
    have hth : ((be32 w ++ be32 h ++ [8, 6, 0, 0, 0]).drop 4).take 4 =
        be32 h := by
      rw [List.append_assoc, List.drop_left' (be32_length w)]
      exact List.take_left' (be32_length h)
    rw [htw, hth, parseBE32_be32 hw, parseBE32_be32 hh]

/-- Witness for C1 with the identity as the compressor model and a
concrete 1×1 canvas. -/
theorem encode_round_trip_witness :
    ((1 : ℕ) < 4294967296) ∧
    ((id (filterScanlines 1 1 [1, 2, 3, 4])).length < 4294967296) ∧
    parseHeaderWH (encodePng id 1 1 [1, 2, 3, 4]) = some (1, 1) :=
  ⟨by norm_num, by decide,
   (encode_round_trip id 1 1 [1, 2, 3, 4] (by norm_num) (by norm_num)
     (by decide)).2.2.2.2.2⟩
